import Mathlib

/-!
# Verification of the img-diff perceptual pixel-diff engine

Shallow embedding of the core of `img-diff` (files `gui.go` and the batch
`main.go`): rectangle geometry (Go's `image.Rectangle` operations used by the
code), the YIQ color metric `yiqDiff`, the diff pass `imageDiff` (difference
map, running `dmin`/`dmax`, per-pixel value stream), the batch threshold
decision, and the RGBA normalization `newRGBAFrom` (including the
`draw.Draw` clipping semantics it invokes).

Machine floating point (`float64`) is embedded as exact rational arithmetic
over `ℚ`; the decimal literals of the source are exactly representable.
-/

namespace ImgDiff

/-- Go `image.Rectangle`: `Min.X, Min.Y, Max.X, Max.Y`. -/
structure Rectangle where
  minX : Int
  minY : Int
  maxX : Int
  maxY : Int
  deriving DecidableEq, Repr

/-- Go `Rectangle.Empty`: `r.Min.X >= r.Max.X || r.Min.Y >= r.Max.Y`. -/
def Rectangle.empty (r : Rectangle) : Bool :=
  r.maxX ≤ r.minX || r.maxY ≤ r.minY

/-- Go `image.ZR`, the zero rectangle. -/
def Rectangle.zero : Rectangle := ⟨0, 0, 0, 0⟩

/-- Go `Rectangle.Union`: returns the other operand when one is empty,
otherwise the componentwise min/max bounding box. -/
def Rectangle.union (r s : Rectangle) : Rectangle :=
  if r.empty then s
  else if s.empty then r
  else ⟨min r.minX s.minX, min r.minY s.minY, max r.maxX s.maxX, max r.maxY s.maxY⟩

/-- Go `Rectangle.Intersect`: componentwise max/min, normalized to `image.ZR`
when the result is empty. -/
def Rectangle.intersect (r s : Rectangle) : Rectangle :=
  let t : Rectangle := ⟨max r.minX s.minX, max r.minY s.minY,
                        min r.maxX s.maxX, min r.maxY s.maxY⟩
  if t.empty then Rectangle.zero else t

/-- Go `Rectangle.Add`: translate a rectangle by a point. -/
def Rectangle.add (r : Rectangle) (dx dy : Int) : Rectangle :=
  ⟨r.minX + dx, r.minY + dy, r.maxX + dx, r.maxY + dy⟩

/-- Go `Point.In(r)`: `r.Min.X <= p.X < r.Max.X && r.Min.Y <= p.Y < r.Max.Y`. -/
def Rectangle.contains (r : Rectangle) (x y : Int) : Bool :=
  (r.minX ≤ x && x < r.maxX) && (r.minY ≤ y && y < r.maxY)

/-- Go `color.RGBA`: four 8-bit channels, carried as naturals. -/
structure RGBA where
  r : Nat
  g : Nat
  b : Nat
  a : Nat
  deriving DecidableEq, Repr

/-- The channels fit in 8 bits (structurally guaranteed by `uint8` in Go). -/
def RGBA.Valid (c : RGBA) : Prop := c.r ≤ 255 ∧ c.g ≤ 255 ∧ c.b ≤ 255

instance (c : RGBA) : Decidable c.Valid := by unfold RGBA.Valid; infer_instance

/-- An `*image.RGBA` buffer: a bounding rectangle together with the pixel
lookup `RGBAAt` (only sampled inside the bounds by the diff pass). -/
structure RGBAImage where
  bounds : Rectangle
  pix : Int → Int → RGBA

/-- Every pixel of an `*image.RGBA` buffer has 8-bit channels. -/
def RGBAImage.Valid (img : RGBAImage) : Prop := ∀ x y, (img.pix x y).Valid

/-- `yiqDiff` from `gui.go`, numerator part: the raw YIQ-weighted squared
difference `0.5053*y*y + 0.299*i*i + 0.1957*q*q` of the two pixels. -/
def yiqRaw (c1 c2 : RGBA) : ℚ :=
  let r1 : ℚ := c1.r
  let g1 : ℚ := c1.g
  let b1 : ℚ := c1.b
  let r2 : ℚ := c2.r
  let g2 : ℚ := c2.g
  let b2 : ℚ := c2.b
  let y1 := r1*0.29889531 + g1*0.58662247 + b1*0.11448223
  let i1 := r1*0.59597799 - g1*0.27417610 - b1*0.32180189
  let q1 := r1*0.21147017 - g1*0.52261711 + b1*0.31114694
  let y2 := r2*0.29889531 + g2*0.58662247 + b2*0.11448223
  let i2 := r2*0.59597799 - g2*0.27417610 - b2*0.32180189
  let q2 := r2*0.21147017 - g2*0.52261711 + b2*0.31114694
  let y := y1 - y2
  let i := i1 - i2
  let q := q1 - q2
  0.5053*y*y + 0.299*i*i + 0.1957*q*q

/-- `yiqDiff` from `gui.go`: the raw difference divided by the constant
`max = 35215.0`. -/
def yiqDiff (c1 c2 : RGBA) : ℚ := yiqRaw c1 c2 / 35215

/-- The YIQ-weighted squared difference as a quadratic form of the three
channel deltas; `yiqRaw` factors through it by linearity of the YIQ
transform. -/
def Qf (dr dg db : ℚ) : ℚ :=
  0.5053*(0.29889531*dr + 0.58662247*dg + 0.11448223*db)^2
  + 0.299*(0.59597799*dr - 0.27417610*dg - 0.32180189*db)^2
  + 0.1957*(0.21147017*dr - 0.52261711*dg + 0.31114694*db)^2

/-- Go `math.MaxFloat64` as an exact rational: `2^1024 - 2^971`. -/
def maxFloat64 : ℚ := 2^1024 - 2^971

/-- Go `color.Gray16Model` conversion applied to an 8-bit `color.RGBA`:
`c.RGBA()` widens each channel to 16 bits as `v*0x101`, then
`y = (19595*r + 38470*g + 7471*b + 1<<15) >> 24`. -/
def gray16FromRGBA (r g b : Nat) : Nat :=
  (19595*(r*257) + 38470*(g*257) + 7471*(b*257) + 2^15) / 2^24

/-- The fill value `imageDiff` paints over the whole difference map before the
pixel sweep: `draw.Draw` with the uniform source `color.RGBA{A: 255}` (opaque
black) converted through the `Gray16` color model. -/
def sentinelGray16 : Nat := gray16FromRGBA 0 0 0

/-- The 16-bit value `imageDiff` stores for a metric value `vd`:
Go `uint16(vd * math.MaxUint16)` truncates the product toward zero
(`vd` is nonnegative, so this is the floor). -/
def gray16OfValue (vd : ℚ) : Nat := (Int.floor (vd * 65535)).toNat

/-- The coordinates visited by the diff loops of `imageDiff`, in program
order: outer loop `x` from `bnd.Min.X` while `< bnd.Max.X`, inner loop `y`
from `bnd.Min.Y` while `< bnd.Max.Y`. -/
def visitOrder (r : Rectangle) : List (Int × Int) :=
  (List.range (r.maxX - r.minX).toNat).flatMap fun (i : Nat) =>
    (List.range (r.maxY - r.minY).toNat).map fun (j : Nat) =>
      (r.minX + (i : Int), r.minY + (j : Int))

/-- One step of the running statistics of `imageDiff`: `dmin` is lowered by
`math.Min` only when `vd > 0`; `dmax` is raised by `math.Max`
unconditionally. -/
def statsStep (acc : ℚ × ℚ) (vd : ℚ) : ℚ × ℚ :=
  (if 0 < vd then min vd acc.1 else acc.1, max vd acc.2)

/-- The running statistics over a stream of metric values, started from the
initializers `dmin := +math.MaxFloat64`, `dmax := -math.MaxFloat64`. -/
def statsFold (vals : List ℚ) : ℚ × ℚ :=
  vals.foldl statsStep (maxFloat64, -maxFloat64)

/-- The result of `imageDiff`: the difference map (its bounds and pixel
lookup), the two statistics, and the stream of per-pixel metric values in
visit order (each of which the code also feeds to `h.Fill(vd, 1)`). -/
structure DiffResult where
  bounds : Rectangle
  at' : Int → Int → Nat
  dmin : ℚ
  dmax : ℚ
  values : List ℚ

/-- `imageDiff` from `gui.go`, for inputs already in RGBA form: allocate a
`Gray16` map over the union of the two bounds, fill it with the sentinel,
then sweep the intersection computing `yiqDiff`, the histogram stream, the
running `dmin`/`dmax`, and the stored 16-bit values. -/
def imageDiff (img1 img2 : RGBAImage) : DiffResult :=
  let r1 := img1.bounds
  let r2 := img2.bounds
  let u := r1.union r2
  let bnd := r1.intersect r2
  let vals := (visitOrder bnd).map fun p => yiqDiff (img1.pix p.1 p.2) (img2.pix p.1 p.2)
  { bounds := u
    at' := fun x y =>
      if bnd.contains x y then gray16OfValue (yiqDiff (img1.pix x y) (img2.pix x y))
      else if u.contains x y then sentinelGray16
      else 0
    dmin := (statsFold vals).1
    dmax := (statsFold vals).2
    values := vals }

/-- The batch-mode exit decision of `main.go`: `os.Exit(1)` when
`gui.dmax > *diff`, `os.Exit(0)` otherwise. -/
def batchExit (dmax threshold : ℚ) : Nat :=
  if threshold < dmax then 1 else 0

/-- Modelled from the spec: the histogram component (`hbook.H1D` from the
go-hep dependency, whose source is not part of this repository) has 100
equal-width bins over `[0,1]`; an observation lands in the bin whose
half-open interval `[k/100, (k+1)/100)` contains it, with bin 99 closed
above so that the value `1` is admitted. -/
def inBin (k : Fin 100) (v : ℚ) : Bool :=
  decide ((k.val : ℚ)/100 ≤ v) &&
    (if k.val = 99 then decide (v ≤ 1) else decide (v < ((k.val : ℚ)+1)/100))

/-- Modelled from the spec: the count a 100-bin histogram holds in bin `k`
after observing every element of the stream `vals` with weight 1. -/
def histCount (vals : List ℚ) (k : Fin 100) : Nat :=
  vals.countP (inBin k)

/-- Column-lexicographic order on coordinates: smaller `x` first, `y`
breaking ties. -/
def colexLt (p q : Int × Int) : Prop :=
  p.1 < q.1 ∨ (p.1 = q.1 ∧ p.2 < q.2)

/-- The sweep order the claim describes instead: row-major, all pixels of one
row (increasing `x`) before the next row. Stated from the claim's words, for
comparison with `visitOrder`. -/
def rowMajorOrder (r : Rectangle) : List (Int × Int) :=
  (List.range (r.maxY - r.minY).toNat).flatMap fun (j : Nat) =>
    (List.range (r.maxX - r.minX).toNat).map fun (i : Nat) =>
      (r.minX + (i : Int), r.minY + (j : Int))

/-- `newRGBAFrom` from `gui.go`: allocate a zero-initialized RGBA buffer over
`src.Bounds()` and run `draw.Draw(dst, bnds, src, image.Point{}, draw.Src)`.
Go's `draw` clips the painted region to
`bnds ∩ dst.Bounds() ∩ (src.Bounds().Add(bnds.Min − sp))` with `sp = (0,0)`,
and paints `dst(p) = src(p − (bnds.Min − sp))`; pixels outside the clipped
region keep the zero initialization of `image.NewRGBA`. The abstract source
is carried as an `RGBAImage` whose `pix` is the source pixel already
converted through its native color model into 8-bit RGBA. -/
def newRGBAFrom (src : RGBAImage) : RGBAImage :=
  let bnds := src.bounds
  let rr := (bnds.intersect bnds).intersect (bnds.add bnds.minX bnds.minY)
  { bounds := bnds
    pix := fun x y =>
      if rr.contains x y then src.pix (x - bnds.minX) (y - bnds.minY)
      else ⟨0, 0, 0, 0⟩ }

/-- Pure black, fully opaque. -/
def black : RGBA := ⟨0, 0, 0, 255⟩

/-- Pure white, fully opaque. -/
def white : RGBA := ⟨255, 255, 255, 255⟩

/-- A constant-color image over a given rectangle. -/
def solidImage (r : Rectangle) (c : RGBA) : RGBAImage := ⟨r, fun _ _ => c⟩

/-- The 10×10 rectangle anchored at the origin. -/
def rect10 : Rectangle := ⟨0, 0, 10, 10⟩

/-- The 1×1 rectangle anchored at the origin. -/
def rect1 : Rectangle := ⟨0, 0, 1, 1⟩

/-- A 1×1 source image anchored at `(1,0)` (non-zero origin), every pixel
pure opaque red. -/
def shiftedRedSrc : RGBAImage := ⟨⟨1, 0, 2, 1⟩, fun _ _ => ⟨255, 0, 0, 255⟩⟩

end ImgDiff

namespace ImgDiff

lemma yiqRaw_eq_Qf (c1 c2 : RGBA) :
    yiqRaw c1 c2 =
      Qf ((c1.r : ℚ) - c2.r) ((c1.g : ℚ) - c2.g) ((c1.b : ℚ) - c2.b) := by
  simp only [yiqRaw, Qf]
  ring

/-- A quadratic with nonnegative leading coefficient attains its maximum over
an interval at one of the endpoints. -/
lemma quad_le_max_endpoints (α β γ lo hi t : ℚ) (hα : 0 ≤ α)
    (hlo : lo ≤ t) (hhi : t ≤ hi) :
    α*t^2 + β*t + γ ≤ max (α*lo^2 + β*lo + γ) (α*hi^2 + β*hi + γ) := by
  rcases le_total (α*(t + lo) + β) 0 with h | h
  · refine le_max_of_le_left ?_
    nlinarith [mul_nonneg (sub_nonneg.mpr hlo) (neg_nonneg.mpr h)]
  · refine le_max_of_le_right ?_
    have h2 : 0 ≤ α*(t + hi) + β := by
      nlinarith [mul_nonneg hα (sub_nonneg.mpr (hlo.trans hhi))]
    nlinarith [mul_nonneg (sub_nonneg.mpr hhi) h2]

lemma Qf_le_max_r (dg db dr : ℚ) (h1 : -255 ≤ dr) (h2 : dr ≤ 255) :
    Qf dr dg db ≤ max (Qf (-255) dg db) (Qf 255 dg db) := by
  have hd : ∀ t : ℚ, Qf t dg db =
      (0.5053*0.29889531^2 + 0.299*0.59597799^2 + 0.1957*0.21147017^2) * t^2
      + (2*(0.5053*0.29889531*0.58662247 - 0.299*0.59597799*0.27417610
            - 0.1957*0.21147017*0.52261711)*dg
         + 2*(0.5053*0.29889531*0.11448223 - 0.299*0.59597799*0.32180189
            + 0.1957*0.21147017*0.31114694)*db) * t
      + Qf 0 dg db := by
    intro t; simp only [Qf]; ring
  rw [hd dr, hd (-255), hd 255]
  exact quad_le_max_endpoints _ _ _ _ _ _ (by norm_num) h1 h2

lemma Qf_le_max_g (dr db dg : ℚ) (h1 : -255 ≤ dg) (h2 : dg ≤ 255) :
    Qf dr dg db ≤ max (Qf dr (-255) db) (Qf dr 255 db) := by
  have hd : ∀ t : ℚ, Qf dr t db =
      (0.5053*0.58662247^2 + 0.299*0.27417610^2 + 0.1957*0.52261711^2) * t^2
      + (2*(0.5053*0.29889531*0.58662247 - 0.299*0.59597799*0.27417610
            - 0.1957*0.21147017*0.52261711)*dr
         + 2*(0.5053*0.58662247*0.11448223 + 0.299*0.27417610*0.32180189
            - 0.1957*0.52261711*0.31114694)*db) * t
      + Qf dr 0 db := by
    intro t; simp only [Qf]; ring
  rw [hd dg, hd (-255), hd 255]
  exact quad_le_max_endpoints _ _ _ _ _ _ (by norm_num) h1 h2

lemma Qf_le_max_b (dr dg db : ℚ) (h1 : -255 ≤ db) (h2 : db ≤ 255) :
    Qf dr dg db ≤ max (Qf dr dg (-255)) (Qf dr dg 255) := by
  have hd : ∀ t : ℚ, Qf dr dg t =
      (0.5053*0.11448223^2 + 0.299*0.32180189^2 + 0.1957*0.31114694^2) * t^2
      + (2*(0.5053*0.29889531*0.11448223 - 0.299*0.59597799*0.32180189
            + 0.1957*0.21147017*0.31114694)*dr
         + 2*(0.5053*0.58662247*0.11448223 + 0.299*0.27417610*0.32180189
            - 0.1957*0.52261711*0.31114694)*dg) * t
      + Qf dr dg 0 := by
    intro t; simp only [Qf]; ring
  rw [hd db, hd (-255), hd 255]
  exact quad_le_max_endpoints _ _ _ _ _ _ (by norm_num) h1 h2

lemma Qf_vertex_le (s1 s2 s3 : ℚ)
    (h1 : s1 = -255 ∨ s1 = 255) (h2 : s2 = -255 ∨ s2 = 255)
    (h3 : s3 = -255 ∨ s3 = 255) : Qf s1 s2 s3 ≤ 35214.75 := by
  rcases h1 with h1|h1 <;> rcases h2 with h2|h2 <;> rcases h3 with h3|h3 <;>
    subst h1 <;> subst h2 <;> subst h3 <;> (simp only [Qf]; norm_num)

/-- The raw YIQ quadratic form never exceeds `35214.75` on the box of
admissible channel deltas (the true maximum, at pure red against pure cyan,
is `35214.74895545784`; in particular the form stays strictly below the
normalization constant `35215`). -/
theorem Qf_le_box (dr dg db : ℚ)
    (h1 : -255 ≤ dr) (h2 : dr ≤ 255) (h3 : -255 ≤ dg) (h4 : dg ≤ 255)
    (h5 : -255 ≤ db) (h6 : db ≤ 255) : Qf dr dg db ≤ 35214.75 := by
  have lift2 : ∀ s1 s2 : ℚ, (s1 = -255 ∨ s1 = 255) → (s2 = -255 ∨ s2 = 255) →
      Qf s1 s2 db ≤ 35214.75 := by
    intro s1 s2 hs1 hs2
    exact (Qf_le_max_b s1 s2 db h5 h6).trans
      (max_le (Qf_vertex_le s1 s2 (-255) hs1 hs2 (Or.inl rfl))
              (Qf_vertex_le s1 s2 255 hs1 hs2 (Or.inr rfl)))
  have lift1 : ∀ s1 : ℚ, (s1 = -255 ∨ s1 = 255) → Qf s1 dg db ≤ 35214.75 := by
    intro s1 hs1
    exact (Qf_le_max_g s1 db dg h3 h4).trans
      (max_le (lift2 s1 (-255) hs1 (Or.inl rfl))
              (lift2 s1 255 hs1 (Or.inr rfl)))
  exact (Qf_le_max_r dg db dr h1 h2).trans
    (max_le (lift1 (-255) (Or.inl rfl)) (lift1 255 (Or.inr rfl)))

theorem yiqRaw_nonneg (c1 c2 : RGBA) : 0 ≤ yiqRaw c1 c2 := by
  rw [yiqRaw_eq_Qf]
  unfold Qf
  positivity

theorem yiqRaw_le_box (c1 c2 : RGBA) (h1 : c1.Valid) (h2 : c2.Valid) :
    yiqRaw c1 c2 ≤ 35214.75 := by
  rw [yiqRaw_eq_Qf]
  obtain ⟨hr1, hg1, hb1⟩ := h1
  obtain ⟨hr2, hg2, hb2⟩ := h2
  have cast255 : ∀ n : Nat, n ≤ 255 → (n : ℚ) ≤ 255 := by
    intro n hn; exact_mod_cast hn
  apply Qf_le_box <;>
    [skip; skip; skip; skip; skip; skip] <;>
    first
    | (have a := cast255 _ hr2; have b := Nat.cast_nonneg (α := ℚ) c1.r; linarith)
    | (have a := cast255 _ hr1; have b := Nat.cast_nonneg (α := ℚ) c2.r; linarith)
    | (have a := cast255 _ hg2; have b := Nat.cast_nonneg (α := ℚ) c1.g; linarith)
    | (have a := cast255 _ hg1; have b := Nat.cast_nonneg (α := ℚ) c2.g; linarith)
    | (have a := cast255 _ hb2; have b := Nat.cast_nonneg (α := ℚ) c1.b; linarith)
    | (have a := cast255 _ hb1; have b := Nat.cast_nonneg (α := ℚ) c2.b; linarith)

theorem yiqDiff_nonneg (c1 c2 : RGBA) : 0 ≤ yiqDiff c1 c2 := by
  unfold yiqDiff
  have := yiqRaw_nonneg c1 c2
  positivity

theorem yiqDiff_lt_one (c1 c2 : RGBA) (h1 : c1.Valid) (h2 : c2.Valid) :
    yiqDiff c1 c2 < 1 := by
  unfold yiqDiff
  have h := yiqRaw_le_box c1 c2 h1 h2
  rw [div_lt_one (by norm_num)]
  linarith

theorem yiqDiff_self (c : RGBA) : yiqDiff c c = 0 := by
  simp only [yiqDiff, yiqRaw]
  ring

/-- Each value of `[0,1]` lies in exactly one histogram bin. -/
lemma inBin_existsUnique (v : ℚ) (h0 : 0 ≤ v) (h1 : v ≤ 1) :
    ∃! k : Fin 100, inBin k v = true := by
  have hfl0 : 0 ≤ Int.floor (v*100) := by positivity
  have hfl99 : Int.floor (v*100) ≤ 100 := by
    have h := Int.floor_le_floor (show v*100 ≤ (100:ℚ) by linarith)
    simpa using h
  have hcast : ((Int.floor (v*100)).toNat : ℚ) = ((Int.floor (v*100) : ℤ) : ℚ) := by
    exact_mod_cast Int.toNat_of_nonneg hfl0
  refine ⟨⟨min 99 (Int.floor (v*100)).toNat, by omega⟩, ?_, ?_⟩
  · have hlow : ((min 99 (Int.floor (v*100)).toNat : Nat) : ℚ)/100 ≤ v := by
      have h2 : ((Int.floor (v*100)).toNat : ℚ) ≤ v*100 := by
        rw [hcast]; exact Int.floor_le _
      have h3 : ((min 99 (Int.floor (v*100)).toNat : Nat) : ℚ)
          ≤ ((Int.floor (v*100)).toNat : ℚ) := by
        exact_mod_cast Nat.min_le_right 99 _
      rw [div_le_iff₀ (by norm_num : (0:ℚ) < 100)]
      linarith
    simp only [inBin, Bool.and_eq_true, decide_eq_true_eq]
    refine ⟨hlow, ?_⟩
    by_cases h99 : min 99 (Int.floor (v*100)).toNat = 99
    · simp [h99, h1]
    · have hlt : (Int.floor (v*100)).toNat < 99 := by omega
      have hmin : min 99 (Int.floor (v*100)).toNat = (Int.floor (v*100)).toNat := by
        omega
      simp only [hmin, if_neg (by omega : ¬ (Int.floor (v*100)).toNat = 99),
        decide_eq_true_eq]
      have hstep := Int.lt_floor_add_one (v*100)
      rw [lt_div_iff₀ (by norm_num : (0:ℚ) < 100), hcast]
      linarith
  · intro k hk
    simp only [inBin, Bool.and_eq_true, decide_eq_true_eq] at hk
    obtain ⟨hklow, hkhigh⟩ := hk
    have hkv : (k.val : ℚ) ≤ v*100 := by
      rw [div_le_iff₀ (by norm_num : (0:ℚ) < 100)] at hklow
      linarith
    refine Fin.ext ?_
    show k.val = min 99 (Int.floor (v*100)).toNat
    have hk100 := k.isLt
    by_cases h99 : k.val = 99
    · -- v*100 ≥ 99, so the floor is at least 99 and the witness index is 99
      have h9 : (99 : ℚ) ≤ v*100 := by rw [h99] at hkv; exact_mod_cast hkv
      have hge : (99 : ℤ) ≤ Int.floor (v*100) := by
        exact Int.le_floor.mpr (by exact_mod_cast h9)
      omega
    · rw [if_neg h99, decide_eq_true_eq] at hkhigh
      have hkv2 : v*100 < (k.val : ℚ) + 1 := by
        rw [lt_div_iff₀ (by norm_num : (0:ℚ) < 100)] at hkhigh
        linarith
      have hfl : Int.floor (v*100) = (k.val : ℤ) := by
        apply Int.floor_eq_iff.mpr
        constructor
        · exact_mod_cast hkv
        · exact_mod_cast hkv2
      omega

/-- A stream of values of `[0,1]` is conserved by the histogram: the bin
counts sum to the stream length. -/
lemma sum_histCount (vals : List ℚ) (h : ∀ v ∈ vals, 0 ≤ v ∧ v ≤ 1) :
    (∑ k : Fin 100, histCount vals k) = vals.length := by
  induction vals with
  | nil => simp [histCount]
  | cons v vs ih =>
    have hv := h v (List.mem_cons_self v vs)
    have hvs : ∀ w ∈ vs, 0 ≤ w ∧ w ≤ 1 := fun w hw => h w (List.mem_cons_of_mem v hw)
    simp only [histCount, List.countP_cons] at *
    rw [Finset.sum_add_distrib, ih hvs]
    have hone : (∑ k : Fin 100, if inBin k v = true then 1 else 0) = 1 := by
      obtain ⟨k0, hk0, huniq⟩ := inBin_existsUnique v hv.1 hv.2
      have hterm : ∀ k : Fin 100,
          (if inBin k v = true then (1:ℕ) else 0) = if k = k0 then 1 else 0 := by
        intro k
        by_cases hkk : k = k0
        · subst hkk; simp [hk0]
        · have hfalse : ¬ inBin k v = true := fun h => hkk (huniq k h)
          simp [hfalse, hkk]
      rw [Finset.sum_congr rfl (fun k _ => hterm k)]
      simp
    rw [hone]
    simp [List.length_cons]

lemma visitOrder_length (r : Rectangle) :
    (visitOrder r).length = (r.maxX - r.minX).toNat * (r.maxY - r.minY).toNat := by
  simp [visitOrder, List.length_flatMap, Function.comp_def, List.map_const']

lemma mem_visitOrder (r : Rectangle) (p : Int × Int) :
    p ∈ visitOrder r ↔ r.contains p.1 p.2 = true := by
  obtain ⟨px, py⟩ := p
  simp only [visitOrder, List.mem_flatMap, List.mem_map, List.mem_range,
    Rectangle.contains, Bool.and_eq_true, decide_eq_true_eq, Prod.mk.injEq]
  constructor
  · rintro ⟨i, hi, j, hj, rfl, rfl⟩
    omega
  · rintro ⟨⟨hx1, hx2⟩, hy1, hy2⟩
    refine ⟨(px - r.minX).toNat, ?_, (py - r.minY).toNat, ?_, ?_, ?_⟩ <;> omega

lemma visitOrder_pairwise (r : Rectangle) :
    (visitOrder r).Pairwise colexLt := by
  rw [visitOrder, List.pairwise_flatMap]
  constructor
  · intro i _
    rw [List.pairwise_map]
    exact (List.pairwise_lt_range _).imp fun {a b} h => Or.inr ⟨rfl, by omega⟩
  · refine (List.pairwise_lt_range _).imp ?_
    rintro a b h p hp q hq
    simp only [List.mem_map, List.mem_range] at hp hq
    obtain ⟨j, _, rfl⟩ := hp
    obtain ⟨j', _, rfl⟩ := hq
    exact Or.inl (by omega)

lemma statsFold_nil : statsFold [] = (maxFloat64, -maxFloat64) := rfl

lemma foldl_statsStep_zeros (vals : List ℚ) :
    ∀ acc : ℚ × ℚ, (∀ v ∈ vals, v = 0) → vals ≠ [] →
      vals.foldl statsStep acc = (acc.1, max 0 acc.2) := by
  induction vals with
  | nil => intro acc _ hne; exact absurd rfl hne
  | cons v vs ih =>
    intro acc h _
    have hv : v = 0 := h v (List.mem_cons_self v vs)
    have hstep : statsStep acc v = (acc.1, max 0 acc.2) := by
      subst hv
      simp [statsStep]
    by_cases hnil : vs = []
    · subst hnil
      simpa [List.foldl] using hstep
    · have hvs : ∀ w ∈ vs, w = 0 := fun w hw => h w (List.mem_cons_of_mem v hw)
      rw [List.foldl_cons, hstep, ih _ hvs hnil]
      simp [← max_assoc]

lemma solidImage_valid (r : Rectangle) (c : RGBA) (h : c.Valid) :
    (solidImage r c).Valid := fun _ _ => h

lemma imageDiff_bounds (img1 img2 : RGBAImage) :
    (imageDiff img1 img2).bounds = img1.bounds.union img2.bounds := rfl

lemma imageDiff_at (img1 img2 : RGBAImage) (x y : Int) :
    (imageDiff img1 img2).at' x y =
      if (img1.bounds.intersect img2.bounds).contains x y then
        gray16OfValue (yiqDiff (img1.pix x y) (img2.pix x y))
      else if (img1.bounds.union img2.bounds).contains x y then sentinelGray16
      else 0 := rfl

lemma imageDiff_values (img1 img2 : RGBAImage) :
    (imageDiff img1 img2).values =
      (visitOrder (img1.bounds.intersect img2.bounds)).map
        fun p => yiqDiff (img1.pix p.1 p.2) (img2.pix p.1 p.2) := rfl

lemma imageDiff_dmin (img1 img2 : RGBAImage) :
    (imageDiff img1 img2).dmin = (statsFold (imageDiff img1 img2).values).1 := rfl

lemma imageDiff_dmax (img1 img2 : RGBAImage) :
    (imageDiff img1 img2).dmax = (statsFold (imageDiff img1 img2).values).2 := rfl

lemma maxFloat64_pos : 0 < maxFloat64 := by norm_num [maxFloat64]

lemma intersect_eq_zero_of_empty (r s : Rectangle)
    (h : (r.intersect s).empty = true) : r.intersect s = Rectangle.zero := by
  simp only [Rectangle.intersect] at h ⊢
  by_cases he : (Rectangle.mk (max r.minX s.minX) (max r.minY s.minY)
      (min r.maxX s.maxX) (min r.maxY s.maxY)).empty = true
  · rw [if_pos he]
  · rw [if_neg he] at h
    exact absurd h he

lemma empty_false_of_contains (r : Rectangle) (x y : Int)
    (h : r.contains x y = true) : r.empty = false := by
  simp only [Rectangle.contains, Bool.and_eq_true, decide_eq_true_eq] at h
  simp only [Rectangle.empty, Bool.or_eq_false_iff, decide_eq_false_iff_not, not_le]
  omega

lemma intersect_self (r : Rectangle) (h : r.empty = false) : r.intersect r = r := by
  obtain ⟨a, b, c, d⟩ := r
  simp only [Rectangle.intersect, max_self, min_self]
  rw [if_neg (by simp [h])]

lemma rect_add_zero (r : Rectangle) : r.add 0 0 = r := by
  obtain ⟨a, b, c, d⟩ := r
  simp [Rectangle.add]

lemma zero_contains (x y : Int) : Rectangle.zero.contains x y = false := by
  simp only [Rectangle.contains, Rectangle.zero]
  by_cases h : (0:Int) ≤ x
  · have : ¬ x < 0 := by omega
    simp [this]
  · simp [h]

lemma visitOrder_zero : visitOrder Rectangle.zero = [] := by decide

lemma visitOrder_ne_nil (r : Rectangle) (h : r.empty = false) :
    visitOrder r ≠ [] := by
  have hx : r.minX < r.maxX ∧ r.minY < r.maxY := by
    simp only [Rectangle.empty, Bool.or_eq_false_iff, decide_eq_false_iff_not,
      not_le] at h
    exact h
  have hlen : 0 < (visitOrder r).length := by
    rw [visitOrder_length]
    have h1 : 0 < (r.maxX - r.minX).toNat := by omega
    have h2 : 0 < (r.maxY - r.minY).toNat := by omega
    positivity
  exact List.ne_nil_of_length_pos hlen

lemma foldl_statsStep_replicate_pos (v : ℚ) (hv : 0 < v) :
    ∀ (n : Nat) (acc : ℚ × ℚ), n ≠ 0 →
      (List.replicate n v).foldl statsStep acc = (min v acc.1, max v acc.2) := by
  intro n
  induction n with
  | zero => intro acc h; exact absurd rfl h
  | succ m ih =>
    intro acc _
    rw [List.replicate_succ, List.foldl_cons]
    have hstep : statsStep acc v = (min v acc.1, max v acc.2) := by
      simp [statsStep, hv]
    by_cases hm : m = 0
    · subst hm
      simpa [List.foldl] using hstep
    · rw [hstep, ih _ hm]
      simp [← min_assoc, ← max_assoc]

end ImgDiff

namespace ImgDiff

/-- C7: the batch decision is a pure function of `dmax` and the threshold:
exit code 1 (fail) exactly when `threshold < dmax`, exit code 0 (pass)
exactly when `dmax ≤ threshold`. -/
theorem c7_threshold_decision (dmax t : ℚ) :
    (batchExit dmax t = 1 ↔ t < dmax) ∧ (batchExit dmax t = 0 ↔ dmax ≤ t) := by
  unfold batchExit
  by_cases h : t < dmax
  · simp [h, not_le.mpr h]
  · simp [h, not_lt.mp h]

/-- C9 counterexample: on the concrete 2×2 intersection anchored at the
origin the loops of `imageDiff` visit `(0,0), (0,1), (1,0), (1,1)` — all of
column `x = 0` first — which differs from the row-major sweep the claim
describes. -/
theorem c9_row_major_counterexample :
    visitOrder ⟨0, 0, 2, 2⟩ = [(0, 0), (0, 1), (1, 0), (1, 1)] ∧
    rowMajorOrder ⟨0, 0, 2, 2⟩ = [(0, 0), (1, 0), (0, 1), (1, 1)] ∧
    visitOrder ⟨0, 0, 2, 2⟩ ≠ rowMajorOrder ⟨0, 0, 2, 2⟩ := by
  refine ⟨by decide, by decide, by decide⟩

/-- C9 amended: the diff pass visits the pixel coordinates of the
intersection in column-major order — all pixels of one column, in increasing
`y`, before the next column — as a single deterministic sweep that
enumerates each coordinate of the intersection exactly once, in strictly
increasing `(x, then y)` order. -/
theorem c9_column_major_amended (r : Rectangle) :
    (visitOrder r).Pairwise colexLt ∧
    ∀ p : Int × Int, p ∈ visitOrder r ↔ r.contains p.1 p.2 = true :=
  ⟨visitOrder_pairwise r, fun p => mem_visitOrder r p⟩

/-- C10: `newRGBAFrom` passes `image.Point{}` instead of `bnds.Min` as the
source point of `draw.Draw`, so for a source whose bounding rectangle is not
anchored at `(0,0)` the converted buffer does NOT hold the source's pixel at
the same coordinate: for the concrete 1×1 red source anchored at `(1,0)`,
the clipped draw region is empty and the result keeps the zero-initialized
pixel, while the bounding rectangle itself is preserved verbatim. -/
theorem c10_normalization_shift_bug :
    (newRGBAFrom shiftedRedSrc).bounds = shiftedRedSrc.bounds ∧
    shiftedRedSrc.pix 1 0 = ⟨255, 0, 0, 255⟩ ∧
    (newRGBAFrom shiftedRedSrc).pix 1 0 = ⟨0, 0, 0, 0⟩ ∧
    (newRGBAFrom shiftedRedSrc).pix 1 0 ≠ shiftedRedSrc.pix 1 0 := by
  refine ⟨rfl, rfl, by decide, by decide⟩

/-- For sources anchored at the origin — the case every decoded input of the
program actually exercises — `newRGBAFrom` does preserve every pixel inside
the bounds, confirming that the shift on non-origin sources is a slip rather
than intent. -/
theorem newRGBAFrom_origin_preserves (src : RGBAImage)
    (h0x : src.bounds.minX = 0) (h0y : src.bounds.minY = 0) (x y : Int)
    (hin : src.bounds.contains x y = true) :
    (newRGBAFrom src).pix x y = src.pix x y := by
  have hne := empty_false_of_contains _ _ _ hin
  have hrr : (src.bounds.intersect src.bounds).intersect
      (src.bounds.add src.bounds.minX src.bounds.minY) = src.bounds := by
    rw [h0x, h0y, rect_add_zero, intersect_self _ hne, intersect_self _ hne]
  show (if ((src.bounds.intersect src.bounds).intersect
        (src.bounds.add src.bounds.minX src.bounds.minY)).contains x y = true then
      src.pix (x - src.bounds.minX) (y - src.bounds.minY)
    else ⟨0, 0, 0, 0⟩) = src.pix x y
  rw [hrr, hin, if_pos rfl, h0x, h0y, sub_zero, sub_zero]

/-- C5: an empty intersection means no pixel is visited, every pixel of the
union-sized difference map holds the sentinel fill, `dmax` remains at its
initializer `-math.MaxFloat64`, and the batch comparison `dmax > threshold`
is false for every threshold at or above that sentinel, so the batch run
exits 0. -/
theorem c5_empty_intersection (img1 img2 : RGBAImage) (t : ℚ)
    (hempty : (img1.bounds.intersect img2.bounds).empty = true)
    (ht : -maxFloat64 ≤ t) :
    visitOrder (img1.bounds.intersect img2.bounds) = [] ∧
    (∀ x y : Int, (img1.bounds.union img2.bounds).contains x y = true →
      (imageDiff img1 img2).at' x y = sentinelGray16) ∧
    (imageDiff img1 img2).dmax = -maxFloat64 ∧
    batchExit (imageDiff img1 img2).dmax t = 0 := by
  have hz : img1.bounds.intersect img2.bounds = Rectangle.zero :=
    intersect_eq_zero_of_empty _ _ hempty
  have hvo : visitOrder (img1.bounds.intersect img2.bounds) = [] := by
    rw [hz, visitOrder_zero]
  have hvals : (imageDiff img1 img2).values = [] := by
    rw [imageDiff_values, hvo, List.map_nil]
  have hdmax : (imageDiff img1 img2).dmax = -maxFloat64 := by
    rw [imageDiff_dmax, hvals, statsFold_nil]
  refine ⟨hvo, ?_, hdmax, ?_⟩
  · intro x y hu
    rw [imageDiff_at, hz, zero_contains, hu]
    simp
  · rw [hdmax]
    unfold batchExit
    rw [if_neg (not_lt.mpr ht)]

/-- C5 witness: two concrete 1×1 images with disjoint bounds and the
threshold 0. -/
theorem c5_empty_intersection_witness :
    ((solidImage rect1 black).bounds.intersect
      (solidImage ⟨2, 2, 3, 3⟩ black).bounds).empty = true ∧
    -maxFloat64 ≤ (0 : ℚ) ∧
    (visitOrder ((solidImage rect1 black).bounds.intersect
        (solidImage ⟨2, 2, 3, 3⟩ black).bounds) = [] ∧
      (∀ x y : Int, ((solidImage rect1 black).bounds.union
          (solidImage ⟨2, 2, 3, 3⟩ black).bounds).contains x y = true →
        (imageDiff (solidImage rect1 black) (solidImage ⟨2, 2, 3, 3⟩ black)).at' x y
          = sentinelGray16) ∧
      (imageDiff (solidImage rect1 black) (solidImage ⟨2, 2, 3, 3⟩ black)).dmax
        = -maxFloat64 ∧
      batchExit (imageDiff (solidImage rect1 black)
        (solidImage ⟨2, 2, 3, 3⟩ black)).dmax 0 = 0) :=
  ⟨by decide, neg_nonpos.mpr maxFloat64_pos.le,
    c5_empty_intersection (solidImage rect1 black) (solidImage ⟨2, 2, 3, 3⟩ black) 0
      (by decide) (neg_nonpos.mpr maxFloat64_pos.le)⟩

/-- C6: when the two images agree on every pixel of a non-empty
intersection, every per-pixel metric value is zero, so `dmax` ends at 0
while `dmin` — updated only for strictly positive values — stays at its
initializer `+math.MaxFloat64`. -/
theorem c6_min_exclusion (img1 img2 : RGBAImage)
    (hpix : ∀ x y : Int, (img1.bounds.intersect img2.bounds).contains x y = true →
      img1.pix x y = img2.pix x y)
    (hne : (img1.bounds.intersect img2.bounds).empty = false) :
    (imageDiff img1 img2).dmax = 0 ∧ (imageDiff img1 img2).dmin = maxFloat64 := by
  have hvals : ∀ v ∈ (imageDiff img1 img2).values, v = 0 := by
    rw [imageDiff_values]
    intro v hv
    obtain ⟨p, hp, rfl⟩ := List.mem_map.mp hv
    rw [hpix p.1 p.2 ((mem_visitOrder _ p).mp hp), yiqDiff_self]
  have hvne : (imageDiff img1 img2).values ≠ [] := by
    rw [imageDiff_values]
    simp only [ne_eq, List.map_eq_nil_iff]
    exact visitOrder_ne_nil _ hne
  have hfold := foldl_statsStep_zeros (imageDiff img1 img2).values
    (maxFloat64, -maxFloat64) hvals hvne
  have hmax : max 0 (-maxFloat64) = 0 :=
    max_eq_left (neg_nonpos.mpr maxFloat64_pos.le)
  constructor
  · rw [imageDiff_dmax]
    show ((imageDiff img1 img2).values.foldl statsStep (maxFloat64, -maxFloat64)).2 = 0
    rw [hfold]
    exact hmax
  · rw [imageDiff_dmin]
    show ((imageDiff img1 img2).values.foldl statsStep (maxFloat64, -maxFloat64)).1
      = maxFloat64
    rw [hfold]

/-- C6 witness: the 1×1 black image diffed against itself. -/
theorem c6_min_exclusion_witness :
    (((solidImage rect1 black).bounds.intersect
      (solidImage rect1 black).bounds).empty = false) ∧
    ((imageDiff (solidImage rect1 black) (solidImage rect1 black)).dmax = 0 ∧
      (imageDiff (solidImage rect1 black) (solidImage rect1 black)).dmin
        = maxFloat64) :=
  ⟨by decide,
    c6_min_exclusion (solidImage rect1 black) (solidImage rect1 black)
      (fun _ _ _ => rfl) (by decide)⟩

/-- C1 counterexample: the fill painted outside the intersection is
`Gray16{0}` — the `Gray16` conversion of opaque black is zero intensity, not
a value distinct from it. For the concrete 2×2 black image against the 1×1
black image, the pixel `(1,1)` outside the intersection and the
legitimately computed zero-difference pixel `(0,0)` inside it hold the same
stored value 0. -/
theorem c1_sentinel_zero_counterexample :
    sentinelGray16 = 0 ∧
    ((solidImage ⟨0, 0, 2, 2⟩ black).bounds.intersect
      (solidImage rect1 black).bounds).contains 1 1 = false ∧
    ((solidImage ⟨0, 0, 2, 2⟩ black).bounds.union
      (solidImage rect1 black).bounds).contains 1 1 = true ∧
    (imageDiff (solidImage ⟨0, 0, 2, 2⟩ black) (solidImage rect1 black)).at' 1 1 = 0 ∧
    ((solidImage ⟨0, 0, 2, 2⟩ black).bounds.intersect
      (solidImage rect1 black).bounds).contains 0 0 = true ∧
    (imageDiff (solidImage ⟨0, 0, 2, 2⟩ black) (solidImage rect1 black)).at' 0 0 = 0 := by
  refine ⟨by decide, by decide, by decide, by decide, by decide, ?_⟩
  rw [imageDiff_at]
  rw [if_pos (by decide :
    ((solidImage ⟨0, 0, 2, 2⟩ black).bounds.intersect
      (solidImage rect1 black).bounds).contains 0 0 = true)]
  show gray16OfValue (yiqDiff black black) = 0
  rw [yiqDiff_self]
  norm_num [gray16OfValue]

/-- C1 amended: the difference map is allocated over the union of the two
bounding rectangles and every pixel outside the intersection holds the fixed
fill value — the `Gray16` conversion of fully opaque black — but that value
equals zero intensity, so a zero-difference pixel inside the intersection
stores the very same value as the fill. -/
theorem c1_sentinel_fill_amended (img1 img2 : RGBAImage) (x y : Int)
    (hu : (img1.bounds.union img2.bounds).contains x y = true)
    (hni : (img1.bounds.intersect img2.bounds).contains x y = false) :
    (imageDiff img1 img2).bounds = img1.bounds.union img2.bounds ∧
    (imageDiff img1 img2).at' x y = sentinelGray16 ∧
    sentinelGray16 = 0 := by
  refine ⟨imageDiff_bounds img1 img2, ?_, by decide⟩
  rw [imageDiff_at, hni, hu]
  simp

/-- C1 amended witness: the pixel `(1,1)` of the union for the concrete 2×2
against 1×1 black images. -/
theorem c1_sentinel_fill_amended_witness :
    (((solidImage ⟨0, 0, 2, 2⟩ black).bounds.union
      (solidImage rect1 black).bounds).contains 1 1 = true) ∧
    (((solidImage ⟨0, 0, 2, 2⟩ black).bounds.intersect
      (solidImage rect1 black).bounds).contains 1 1 = false) ∧
    ((imageDiff (solidImage ⟨0, 0, 2, 2⟩ black) (solidImage rect1 black)).bounds
      = (solidImage ⟨0, 0, 2, 2⟩ black).bounds.union (solidImage rect1 black).bounds ∧
    (imageDiff (solidImage ⟨0, 0, 2, 2⟩ black) (solidImage rect1 black)).at' 1 1
      = sentinelGray16 ∧
    sentinelGray16 = 0) :=
  ⟨by decide, by decide,
    c1_sentinel_fill_amended (solidImage ⟨0, 0, 2, 2⟩ black) (solidImage rect1 black)
      1 1 (by decide) (by decide)⟩

/-- C4: for 8-bit pixels the color metric is confined to `[0,1]` — in fact
it stays strictly below 1 — because the raw YIQ-weighted squared difference
never exceeds the normalization constant `35215.0` (its true maximum over
valid pixel pairs is `35214.74895545784`, at pure red against pure cyan). -/
theorem c4_metric_bounds (c1 c2 : RGBA) (h1 : c1.Valid) (h2 : c2.Valid) :
    (0 ≤ yiqDiff c1 c2 ∧ yiqDiff c1 c2 ≤ 1) ∧ yiqRaw c1 c2 ≤ 35215 := by
  have hr := yiqRaw_le_box c1 c2 h1 h2
  exact ⟨⟨yiqDiff_nonneg c1 c2, (yiqDiff_lt_one c1 c2 h1 h2).le⟩, by linarith⟩

/-- C4 witness: the bounds at the concrete pair black/white. -/
theorem c4_metric_bounds_witness :
    black.Valid ∧ white.Valid ∧
    ((0 ≤ yiqDiff black white ∧ yiqDiff black white ≤ 1) ∧
      yiqRaw black white ≤ 35215) :=
  ⟨by decide, by decide, c4_metric_bounds black white (by decide) (by decide)⟩

/-- C3 counterexample: for the 1×1 images black against `(3,0,0)`, the exact
scaled metric is `≈ 2.6814`; the code stores the truncation 2, while
`round(metric * 65535)` is 3. -/
theorem c3_round_counterexample :
    (imageDiff (solidImage rect1 ⟨0, 0, 0, 255⟩)
      (solidImage rect1 ⟨3, 0, 0, 255⟩)).at' 0 0 = 2 ∧
    round (yiqDiff ⟨0, 0, 0, 255⟩ ⟨3, 0, 0, 255⟩ * 65535) = 3 ∧
    ((imageDiff (solidImage rect1 ⟨0, 0, 0, 255⟩)
        (solidImage rect1 ⟨3, 0, 0, 255⟩)).at' 0 0 : ℤ)
      ≠ round (yiqDiff ⟨0, 0, 0, 255⟩ ⟨3, 0, 0, 255⟩ * 65535) := by
  have hat : (imageDiff (solidImage rect1 ⟨0, 0, 0, 255⟩)
      (solidImage rect1 ⟨3, 0, 0, 255⟩)).at' 0 0 = 2 := by
    rw [imageDiff_at]
    rw [if_pos (by decide :
      ((solidImage rect1 (⟨0, 0, 0, 255⟩ : RGBA)).bounds.intersect
        (solidImage rect1 (⟨3, 0, 0, 255⟩ : RGBA)).bounds).contains 0 0 = true)]
    show gray16OfValue (yiqDiff ⟨0, 0, 0, 255⟩ ⟨3, 0, 0, 255⟩) = 2
    unfold gray16OfValue
    rw [show Int.floor (yiqDiff ⟨0, 0, 0, 255⟩ ⟨3, 0, 0, 255⟩ * 65535) = 2 from by
      norm_num [yiqDiff, yiqRaw]]
    decide
  have hround : round (yiqDiff ⟨0, 0, 0, 255⟩ ⟨3, 0, 0, 255⟩ * 65535) = 3 := by
    rw [round_eq]
    norm_num [yiqDiff, yiqRaw]
  refine ⟨hat, hround, ?_⟩
  rw [hat, hround]
  decide

/-- C3 amended: within the intersection the stored 16-bit value is the
truncation `floor(metric * 65535)` — not the rounding — so it
underapproximates the exact scaled metric by strictly less than one and fits
in 16 bits. -/
theorem c3_truncation_amended (img1 img2 : RGBAImage)
    (h1 : img1.Valid) (h2 : img2.Valid) (x y : Int)
    (hxy : (img1.bounds.intersect img2.bounds).contains x y = true) :
    ((imageDiff img1 img2).at' x y : ℤ)
      = Int.floor (yiqDiff (img1.pix x y) (img2.pix x y) * 65535) ∧
    ((imageDiff img1 img2).at' x y : ℚ)
      ≤ yiqDiff (img1.pix x y) (img2.pix x y) * 65535 ∧
    yiqDiff (img1.pix x y) (img2.pix x y) * 65535
      < ((imageDiff img1 img2).at' x y : ℚ) + 1 ∧
    (imageDiff img1 img2).at' x y ≤ 65534 := by
  have hv0 : 0 ≤ yiqDiff (img1.pix x y) (img2.pix x y) := yiqDiff_nonneg _ _
  have hv1 : yiqDiff (img1.pix x y) (img2.pix x y) < 1 :=
    yiqDiff_lt_one _ _ (h1 x y) (h2 x y)
  have hat : (imageDiff img1 img2).at' x y
      = gray16OfValue (yiqDiff (img1.pix x y) (img2.pix x y)) := by
    rw [imageDiff_at, hxy]
    simp
  have hfl0 : 0 ≤ Int.floor (yiqDiff (img1.pix x y) (img2.pix x y) * 65535) := by
    positivity
  have hcastz : ((gray16OfValue (yiqDiff (img1.pix x y) (img2.pix x y)) : ℕ) : ℤ)
      = Int.floor (yiqDiff (img1.pix x y) (img2.pix x y) * 65535) := by
    unfold gray16OfValue
    exact Int.toNat_of_nonneg hfl0
  have hcastq : ((gray16OfValue (yiqDiff (img1.pix x y) (img2.pix x y)) : ℕ) : ℚ)
      = ((Int.floor (yiqDiff (img1.pix x y) (img2.pix x y) * 65535) : ℤ) : ℚ) := by
    exact_mod_cast congrArg (fun z : ℤ => (z : ℚ)) hcastz
  refine ⟨by rw [hat]; exact hcastz, ?_, ?_, ?_⟩
  · rw [hat, hcastq]
    exact Int.floor_le _
  · rw [hat, hcastq]
    exact Int.lt_floor_add_one _
  · rw [hat]
    have hlt : Int.floor (yiqDiff (img1.pix x y) (img2.pix x y) * 65535) < 65535 := by
      apply Int.floor_lt.mpr
      push_cast
      nlinarith
    unfold gray16OfValue
    omega

/-- C3 amended witness: the 1×1 black/white pair at the pixel `(0,0)`. -/
theorem c3_truncation_amended_witness :
    (solidImage rect1 black).Valid ∧ (solidImage rect1 white).Valid ∧
    ((solidImage rect1 black).bounds.intersect
      (solidImage rect1 white).bounds).contains 0 0 = true ∧
    (((imageDiff (solidImage rect1 black) (solidImage rect1 white)).at' 0 0 : ℤ)
      = Int.floor (yiqDiff ((solidImage rect1 black).pix 0 0)
          ((solidImage rect1 white).pix 0 0) * 65535) ∧
    ((imageDiff (solidImage rect1 black) (solidImage rect1 white)).at' 0 0 : ℚ)
      ≤ yiqDiff ((solidImage rect1 black).pix 0 0)
          ((solidImage rect1 white).pix 0 0) * 65535 ∧
    yiqDiff ((solidImage rect1 black).pix 0 0)
        ((solidImage rect1 white).pix 0 0) * 65535
      < ((imageDiff (solidImage rect1 black) (solidImage rect1 white)).at' 0 0 : ℚ) + 1 ∧
    (imageDiff (solidImage rect1 black) (solidImage rect1 white)).at' 0 0 ≤ 65534) :=
  ⟨solidImage_valid _ _ (by decide), solidImage_valid _ _ (by decide), by decide,
    c3_truncation_amended (solidImage rect1 black) (solidImage rect1 white)
      (solidImage_valid _ _ (by decide)) (solidImage_valid _ _ (by decide))
      0 0 (by decide)⟩

/-- C8: exactly one histogram observation of weight 1 is recorded per pixel
of the intersection — every metric value lies in `[0,1]`, so each lands in
exactly one of the 100 bins — and the bin counts sum to the number of pixels
of the intersection. -/
theorem c8_histogram_conservation (img1 img2 : RGBAImage)
    (h1 : img1.Valid) (h2 : img2.Valid) :
    (∑ k : Fin 100, histCount (imageDiff img1 img2).values k)
      = (imageDiff img1 img2).values.length ∧
    (imageDiff img1 img2).values.length
      = ((img1.bounds.intersect img2.bounds).maxX
          - (img1.bounds.intersect img2.bounds).minX).toNat
        * ((img1.bounds.intersect img2.bounds).maxY
          - (img1.bounds.intersect img2.bounds).minY).toNat := by
  constructor
  · apply sum_histCount
    intro v hv
    rw [imageDiff_values] at hv
    obtain ⟨p, hp, rfl⟩ := List.mem_map.mp hv
    exact ⟨yiqDiff_nonneg _ _, (yiqDiff_lt_one _ _ (h1 _ _) (h2 _ _)).le⟩
  · rw [imageDiff_values, List.length_map, visitOrder_length]

/-- C8 witness: the 1×1 black/white pair. -/
theorem c8_histogram_conservation_witness :
    (solidImage rect1 black).Valid ∧ (solidImage rect1 white).Valid ∧
    ((∑ k : Fin 100, histCount
        (imageDiff (solidImage rect1 black) (solidImage rect1 white)).values k)
      = (imageDiff (solidImage rect1 black) (solidImage rect1 white)).values.length ∧
    (imageDiff (solidImage rect1 black) (solidImage rect1 white)).values.length
      = (((solidImage rect1 black).bounds.intersect
            (solidImage rect1 white).bounds).maxX
          - ((solidImage rect1 black).bounds.intersect
            (solidImage rect1 white).bounds).minX).toNat
        * (((solidImage rect1 black).bounds.intersect
            (solidImage rect1 white).bounds).maxY
          - ((solidImage rect1 black).bounds.intersect
            (solidImage rect1 white).bounds).minY).toNat) :=
  ⟨solidImage_valid _ _ (by decide), solidImage_valid _ _ (by decide),
    c8_histogram_conservation (solidImage rect1 black) (solidImage rect1 white)
      (solidImage_valid _ _ (by decide)) (solidImage_valid _ _ (by decide))⟩

/-- C2 counterexample: the metric of pure black against pure white is
exactly `131428532628570613142853/140860000000000000000000 ≈ 0.93304`, not
1.0; the raw value of that pair is `≈ 32857.13`, not the normalization
constant `35215.0`, which is instead an upper bound attained near pure red
against pure cyan. -/
theorem c2_black_white_metric_counterexample :
    yiqDiff black white = 131428532628570613142853/140860000000000000000000 ∧
    yiqDiff black white ≠ 1 ∧
    yiqRaw black white = 131428532628570613142853/4000000000000000000 ∧
    yiqRaw black white ≠ 35215 := by
  have h1 : yiqDiff black white
      = 131428532628570613142853/140860000000000000000000 := by
    norm_num [yiqDiff, yiqRaw, black, white]
  have h2 : yiqRaw black white = 131428532628570613142853/4000000000000000000 := by
    norm_num [yiqRaw, black, white]
  refine ⟨h1, ?_, h2, ?_⟩
  · rw [h1]; norm_num
  · rw [h2]; norm_num

/-- C2 amended: the black/white metric is
`131428532628570613142853/140860000000000000000000 ≈ 0.93304` (the constant
`35215.0` is not the raw value of that pair, only an upper bound over all
pairs), so the 10×10 black against 10×10 white scenario yields that value as
`dmax` and all 100 metric values land in histogram bin 93, every other bin
holding 0. -/
theorem c2_black_white_metric_amended :
    yiqDiff black white = 131428532628570613142853/140860000000000000000000 ∧
    (imageDiff (solidImage rect10 black) (solidImage rect10 white)).dmax
      = 131428532628570613142853/140860000000000000000000 ∧
    histCount (imageDiff (solidImage rect10 black) (solidImage rect10 white)).values
      ⟨93, by norm_num⟩ = 100 ∧
    ∀ k : Fin 100, k ≠ ⟨93, by norm_num⟩ →
      histCount (imageDiff (solidImage rect10 black)
        (solidImage rect10 white)).values k = 0 := by
  have hm : yiqDiff black white
      = 131428532628570613142853/140860000000000000000000 := by
    norm_num [yiqDiff, yiqRaw, black, white]
  have hM0 : (0:ℚ) < 131428532628570613142853/140860000000000000000000 := by norm_num
  have hM1 : (131428532628570613142853/140860000000000000000000 : ℚ) ≤ 1 := by
    norm_num
  have hvals : (imageDiff (solidImage rect10 black) (solidImage rect10 white)).values
      = List.replicate 100 (131428532628570613142853/140860000000000000000000 : ℚ) := by
    rw [imageDiff_values]
    rw [show (solidImage rect10 black).bounds.intersect
        (solidImage rect10 white).bounds = rect10 from by decide]
    have hcongr : ∀ p ∈ visitOrder rect10,
        yiqDiff ((solidImage rect10 black).pix p.1 p.2)
            ((solidImage rect10 white).pix p.1 p.2)
          = (131428532628570613142853/140860000000000000000000 : ℚ) :=
      fun p _ => hm
    rw [List.map_congr_left hcongr, List.map_const',
      show (visitOrder rect10).length = 100 from by decide]
  have hdmax : (imageDiff (solidImage rect10 black) (solidImage rect10 white)).dmax
      = 131428532628570613142853/140860000000000000000000 := by
    rw [imageDiff_dmax, hvals]
    show (statsFold (List.replicate 100 _)).2 = _
    unfold statsFold
    rw [foldl_statsStep_replicate_pos _ hM0 100 _ (by decide)]
    exact max_eq_left (le_trans (neg_nonpos.mpr maxFloat64_pos.le) hM0.le)
  have h93 : inBin ⟨93, by norm_num⟩
      (131428532628570613142853/140860000000000000000000 : ℚ) = true := by
    simp only [inBin]
    norm_num
  refine ⟨hm, hdmax, ?_, ?_⟩
  · rw [hvals]
    unfold histCount
    rw [List.countP_replicate, if_pos h93]
  · intro k hk
    rw [hvals]
    unfold histCount
    rw [List.countP_replicate]
    have hfalse : inBin k
        (131428532628570613142853/140860000000000000000000 : ℚ) = false := by
      obtain ⟨k0, hk0, huniq⟩ := inBin_existsUnique _ hM0.le hM1
      have e93 : k0 = ⟨93, by norm_num⟩ := (huniq _ h93).symm
      rcases Bool.eq_false_or_eq_true (inBin k
          (131428532628570613142853/140860000000000000000000 : ℚ)) with h | h
      · exact absurd ((huniq k h).trans e93) hk
      · exact h
    rw [hfalse]
    simp

/-- C2 amended witness: bin 0 of the scenario holds no observation. -/
theorem c2_black_white_metric_amended_witness :
    ((⟨0, by norm_num⟩ : Fin 100) ≠ ⟨93, by norm_num⟩) ∧
    histCount (imageDiff (solidImage rect10 black)
      (solidImage rect10 white)).values ⟨0, by norm_num⟩ = 0 :=
  ⟨by decide,
    c2_black_white_metric_amended.2.2.2 ⟨0, by norm_num⟩ (by decide)⟩

end ImgDiff
